import Mathlib

/-!
Verification of the Skema route-schema generator (`src/register_route.ts`,
`src/define_config.ts`) against its natural-language specification.

Strings are modelled by Lean `String`s; the JavaScript string operations used
by the source (`split`, `startsWith`, `endsWith`, `replace` with a string
pattern, `toLowerCase`, `toUpperCase`, `trim`, `join`) are embedded as
structurally recursive functions over the underlying character lists so that
every definition evaluates inside the kernel.
-/

namespace Skema

/-- JS `s.startsWith(p)`: `p` is a literal character-wise prefix of `s`. -/
def strStartsWith (s p : String) : Bool := p.data.isPrefixOf s.data

/-- JS `s.endsWith(p)`: `p` is a literal character-wise suffix of `s`. -/
def strEndsWith (s p : String) : Bool := p.data.isSuffixOf s.data

/-- JS `s.toLowerCase()` (ASCII, which is all the source ever feeds it). -/
def strLower (s : String) : String := String.mk (s.data.map Char.toLower)

/-- JS `s.toUpperCase()` (ASCII, which is all the source ever feeds it). -/
def strUpper (s : String) : String := String.mk (s.data.map Char.toUpper)

/-- JS `s.split(sep)` for a single separator character, on character lists:
`"a//b" ↦ [[a],[],[b]]`, `"" ↦ [[]]`. -/
def splitCharR (sep : Char) : List Char → List (List Char)
  | [] => [[]]
  | c :: rest =>
    if c = sep then [] :: splitCharR sep rest
    else
      match splitCharR sep rest with
      | [] => [[c]]
      | t :: ts => (c :: t) :: ts

/-- JS `s.split(sep)` for a single separator character. -/
def splitChar (s : String) (sep : Char) : List String :=
  (splitCharR sep s.data).map String.mk

/-- JS `s.split(ab)` for a two-character separator string (leftmost-first,
non-overlapping), on character lists. -/
def splitStr2R (a b : Char) : List Char → List (List Char)
  | [] => [[]]
  | [c] => [[c]]
  | c :: c2 :: rest =>
    if c = a ∧ c2 = b then [] :: splitStr2R a b rest
    else
      match splitStr2R a b (c2 :: rest) with
      | [] => [[c]]
      | t :: ts => (c :: t) :: ts

/-- JS `s.split(ab)` for a two-character separator string. -/
def splitStr2 (s : String) (a b : Char) : List String :=
  (splitStr2R a b s.data).map String.mk

/-- JS `l.join(sep)`. -/
def joinSep (sep : String) : List String → String
  | [] => ""
  | [x] => x
  | x :: y :: rest => x ++ sep ++ joinSep sep (y :: rest)

/-- JS `s.trim()` restricted to space characters (placeholder names only ever
carry surrounding spaces). -/
def trimSpaces (s : String) : String :=
  String.mk (((s.data.dropWhile (· = ' ')).reverse.dropWhile (· = ' ')).reverse)

/-- JS `s.replace(pat, '')` for a string pattern: removes the first
occurrence of `pat`, or leaves `s` unchanged when `pat` does not occur. -/
def removeFirst : List Char → List Char → List Char
  | [], _ => []
  | c :: rest, pat =>
    if pat.isPrefixOf (c :: rest) then (c :: rest).drop pat.length
    else c :: removeFirst rest pat

/-- `removeFirst` lifted to strings. -/
def replaceFirstStr (s pat : String) : String :=
  String.mk (removeFirst s.data pat.data)

/-- JS `s.dropRight`-style helper: keep all but the last `n` characters. -/
def strDropRight (s : String) (n : Nat) : String :=
  String.mk (s.data.take (s.data.length - n))

/-- JS `path.split('/').pop()`: the final path segment (`""` only for the
empty path). -/
def lastSegment (path : String) : String :=
  ((splitChar path '/').getLast?).getD ""

/-! ## `defineConfig` (src/define_config.ts) -/

/-- Character class of the group-pattern regex `/^\/[a-z0-9-\/]+\/$/`. -/
def groupValueChar (c : Char) : Bool :=
  ('a' ≤ c && c ≤ 'z') || c.isDigit || c == '-' || c == '/'

/-- The test `/^\/[a-z0-9-\/]+\/$/.test(value)` from `defineConfig`. -/
def testGroupValue (s : String) : Bool :=
  match s.data with
  | [] => false
  | c :: rest =>
    c == '/' && !rest.dropLast.isEmpty && rest.getLast? == some '/'
      && rest.dropLast.all groupValueChar

/-- The test `/^[a-z0-9_]+$/.test(key)` from `defineConfig`. -/
def testGroupKey (s : String) : Bool :=
  !s.data.isEmpty && s.data.all (fun c => ('a' ≤ c && c ≤ 'z') || c.isDigit || c == '_')

/-- The two `InvalidArgumentsException`s thrown by `defineConfig`; the
constructors carry the data the JS error message interpolates. -/
inductive ConfigError where
  | invalidValue (key value : String)
  | invalidName (key : String)
deriving DecidableEq, Repr

/-- The validation loop of `defineConfig`: for each `[key, value]` entry (in
insertion order) the value regex is tested first, then the key regex. -/
def checkGroups : List (String × String) → Except ConfigError Unit
  | [] => .ok ()
  | (k, v) :: rest =>
    if testGroupValue v = false then .error (.invalidValue k v)
    else if testGroupKey k = false then .error (.invalidName k)
    else checkGroups rest

/-- `defineConfig` from src/define_config.ts: validates every group entry and
returns the configuration unchanged (the `groupsLength > 0` guard is
equivalent to the loop doing nothing on an empty mapping). -/
def defineConfig (groups : List (String × String)) : Except ConfigError (List (String × String)) :=
  match checkGroups groups with
  | .error e => .error e
  | .ok _ => .ok groups

/-- What it means for a raised `ConfigError` to name an offending entry of
the given configuration. -/
def offendingError : ConfigError → List (String × String) → Prop
  | .invalidValue k v, gs => (k, v) ∈ gs ∧ testGroupValue v = false
  | .invalidName k, gs => ∃ v, (k, v) ∈ gs ∧ testGroupKey k = false

/-! ## Method resolution (`#getMethod`) -/

/-- `#getMethod`: start from `'GET'`, skip entries whose lowercase form is
`"head"`, and let every other entry overwrite the result with its uppercase
form. -/
def getMethod (methods : List String) : String :=
  methods.foldl (fun res m => if strLower m == "head" then res else strUpper (strLower m)) "GET"

/-! ## Group assignment (`#groupRoutes`) -/

/-- The inner `for ... break` loop of `#groupRoutes`: the first configured
`[key, value]` entry whose value is a literal prefix of the route pattern. -/
def findGroupLoop : List (String × String) → String → Option String
  | [], _ => none
  | (k, v) :: rest, pat =>
    if strStartsWith pat v then some k else findGroupLoop rest pat

/-- Group assignment of one route in `#groupRoutes`: the first matching
configured key, with the JS falsy check `if (!group)` mapping an empty-string
key (and the no-match case) to `'internal'`. -/
def assignGroup (groups : List (String × String)) (pat : String) : String :=
  match findGroupLoop groups pat with
  | none => "internal"
  | some k => if k = "" then "internal" else k

/-- Declarative first-match specification for group assignment, as the spec
states it: the first configured key (in declaration order) whose value is a
literal prefix of the path, else `"internal"`. -/
def firstMatchingGroup (groups : List (String × String)) (pat : String) : String :=
  (((groups.find? fun kv => strStartsWith pat kv.2).map Prod.fst).getD "internal")

/-! ## Route naming (`run` lines 426-441 and `#getConstructorAction`) -/

/-- The character class of the split regex (dot, slash, hyphen). -/
def isSep (c : Char) : Bool := c == '.' || c == '/' || c == '-'

/-- JS `s.split(regex)` for the dot-slash-hyphen class: split on maximal nonempty runs
of `.`, `/`, `-`; leading/trailing runs produce empty tokens exactly as the
JS regex split does. -/
def splitRunsR : List Char → List (List Char)
  | [] => [[]]
  | c :: rest =>
    if isSep c then
      match rest with
      | [] => [[], []]
      | c2 :: rest2 =>
        if isSep c2 then splitRunsR (c2 :: rest2)
        else [] :: splitRunsR (c2 :: rest2)
    else
      match splitRunsR rest with
      | [] => [[c]]
      | t :: ts => (c :: t) :: ts

/-- The dot-slash-hyphen run split of `run` applied to a route pattern. -/
def splitRuns (s : String) : List String := (splitRunsR s.data).map String.mk

/-- The `spacedPath` loop: push every split token that does not start with
`':'` (accumulator-passing form of the imperative loop). -/
def pushNonParams (acc : List String) : List String → List String
  | [] => acc
  | s :: rest =>
    if strStartsWith s ":" then pushNonParams acc rest
    else pushNonParams (acc ++ [s]) rest

/-- JS `[...new Set(l)]`: insertion-ordered deduplication, modelled as the
fold that inserts each element into the set unless already present. -/
def setDedup (seen : List String) : List String → List String
  | [] => seen
  | s :: rest => if s ∈ seen then setDedup seen rest else setDedup (seen ++ [s]) rest

/-- Declarative first-occurrence deduplication, as the spec words it: keep
each token's first occurrence, dropping all later duplicates (the head is
kept and removed from the deduplicated tail). -/
def dedupFirst : List String → List String
  | [] => []
  | s :: rest => s :: (dedupFirst rest).filter (fun t => t != s)

/-- `#getConstructorAction`: take the final segment of the (relative)
controller path, require it to end in `"_controller.ts"`, remove the first
occurrence of that substring (JS `replace` with a string pattern), and split
the remainder on `'_'`. -/
def getConstructorAction (path : String) : Except String (List String) :=
  let fileName := lastSegment path
  if fileName = "" then .error "Unable to determine the file name"
  else if strEndsWith fileName "_controller.ts" = false then
    .error "The file name must end with \"_controller.ts\""
  else .ok (splitChar (replaceFirstStr fileName "_controller.ts") '_')

/-- Name derivation from `run` (lines 426-441): the pattern's non-parameter
split tokens followed by the controller words, each passed through the
external `snakeCase` helper `sc`, deduplicated via `new Set`, joined with
spaces; the key is the uppercased `sc` of the joined phrase and the type is
the external `pascalCase` helper `pc` of the phrase plus `"Route"`. -/
def deriveNames (sc pc : String → String) (pat relPath : String) :
    Except String (String × String) :=
  match getConstructorAction relPath with
  | .error e => .error e
  | .ok ws =>
    let spaced := pushNonParams [] (splitRuns pat) ++ ws
    let joined := joinSep " " (setDedup [] (spaced.map sc))
    .ok (strUpper (sc joined), pc joined ++ "Route")

/-- The controller words exactly as the claim states them: the file name with
the `_controller.ts` suffix stripped, split on `'_'`. -/
def suffixStripWords (fileName : String) : List String :=
  splitChar (strDropRight fileName "_controller.ts".length) '_'

/-- Name derivation following the claim's words verbatim (in particular the
controller words come from `suffixStripWords`): `none` models the fatal
abort when the file name lacks the `_controller` suffix. -/
def specDeriveOriginal (sc pc : String → String) (pat fileName : String) :
    Option (String × String) :=
  if strEndsWith fileName "_controller.ts" then
    let toks := ((splitRuns pat).filter (fun s => !strStartsWith s ":")) ++ suffixStripWords fileName
    let phrase := joinSep " " (dedupFirst (toks.map sc))
    some (strUpper (sc phrase), pc phrase ++ "Route")
  else none

/-- Name derivation following the amended claim: identical to
`specDeriveOriginal` except that the controller words remove the *first*
occurrence of `"_controller.ts"` (what JS `replace` does) instead of
stripping the suffix. -/
def specDeriveAmended (sc pc : String → String) (pat fileName : String) :
    Option (String × String) :=
  if strEndsWith fileName "_controller.ts" then
    let ws := splitChar (replaceFirstStr fileName "_controller.ts") '_'
    let toks := ((splitRuns pat).filter (fun s => !strStartsWith s ":")) ++ ws
    let phrase := joinSep " " (dedupFirst (toks.map sc))
    some (strUpper (sc phrase), pc phrase ++ "Route")
  else none

/-! ## Path segment validation and rewriting (`run` lines 443-467) -/

/-- The literal-segment test `/^[a-z0-9-]+$/i.test(segment)`: note the `i`
flag, so letters of either case are accepted. -/
def literalSegOk (s : String) : Bool :=
  !s.data.isEmpty && s.data.all (fun c => c.isAlpha || c.isDigit || c == '-')

/-- The parameter-segment test `/^:[a-zA-Z]+$/i.test(segment)`. -/
def paramSegOk (s : String) : Bool :=
  match s.data with
  | ':' :: rest => !rest.isEmpty && rest.all Char.isAlpha
  | _ => false

/-- The lowercase literal-segment rule as the claim states it:
`/^[a-z0-9-]+$/` without the `i` flag. -/
def specLiteralSegment (s : String) : Bool :=
  !s.data.isEmpty && s.data.all (fun c => ('a' ≤ c && c ≤ 'z') || c.isDigit || c == '-')

/-- Rewrite of one parameter segment: `{{ name }}` with the leading colon
removed (JS `segment.replace(':', '')`). -/
def mustacheOf (s : String) : String :=
  "\x7b\x7b " ++ replaceFirstStr s ":" ++ " \x7d\x7d"

/-- The segment loop of `run` (lines 445-467): parameter segments are
validated and rewritten to mustache placeholders, literal segments are
validated; either violation throws (fatal). -/
def rewriteSegments : List String → Except String (List String)
  | [] => .ok []
  | s :: rest =>
    if strStartsWith s ":" then
      if paramSegOk s then
        match rewriteSegments rest with
        | .error e => .error e
        | .ok r => .ok (mustacheOf s :: r)
      else .error "Only small letters allowed in parameter segments"
    else
      if literalSegOk s then
        match rewriteSegments rest with
        | .error e => .error e
        | .ok r => .ok (s :: r)
      else .error "Only small letters and number allowed in non parameter segments"

/-- `splittedPath` handling in `run`: split the pattern on `'/'`, drop the
first (empty) entry, validate/rewrite every segment, and re-join under a
leading slash. -/
def validatePath (pat : String) : Except String String :=
  match rewriteSegments ((splitChar pat '/').drop 1) with
  | .error e => .error e
  | .ok segs => .ok ("/" ++ joinSep "/" segs)

/-! ## Data model of the generation run (`run`, lines 38-50 and 393-570) -/

/-- The derived name pair of a `ParsedRoute`. -/
structure RouteName where
  key : String
  type : String
deriving DecidableEq, Repr

/-- The controller reference of a `ParsedRoute`. -/
structure ControllerRef where
  relative : String
  path : String
deriving DecidableEq, Repr

/-- `ParsedRoute` from register_route.ts. -/
structure ParsedRoute where
  path : String
  method : String
  form : Bool
  name : RouteName
  controller : ControllerRef
deriving DecidableEq, Repr

/-- The `form` class member as ts-morph reports it: whether its declared type
is boolean, and the initializer *text* (`none` when there is no
initializer). -/
structure FormInfo where
  isBooleanType : Bool
  initLit : Option String
deriving DecidableEq, Repr

/-- The default-exported class of a controller module as ts-morph reports
it: `input` is `some b` when an `input` member exists with `b` recording
whether its type is object-shaped; `form` likewise. -/
structure ControllerClass where
  isClassType : Bool
  hasHandle : Bool
  input : Option Bool
  form : Option FormInfo
deriving DecidableEq, Repr

/-- Resolution results for one route's handler module: the path relative to
the emission target, the module name-or-path, and the default-exported class
(`none` when `getClasses().find(isDefaultExport)` finds nothing). -/
structure SourceInfo where
  relativePath : String
  modulePath : String
  cls : Option ControllerClass
deriving DecidableEq, Repr

/-- One raw route record as the pipeline consumes it. `source = none` models
a handler whose source file could not be found. -/
structure RouteRecord where
  pattern : String
  methods : List String
  handlerIsFunction : Bool
  source : Option SourceInfo
deriving DecidableEq, Repr

/-- JS `Boolean(x)` applied to an optional initializer text: `undefined` and
the empty string are falsy, every other string is truthy — in particular the
text `"false"` is truthy. -/
def jsTruthy : Option String → Bool
  | none => false
  | some s => !s.data.isEmpty

/-- The boolean value denoted by a boolean literal initializer text. -/
def boolLiteralValue (s : String) : Option Bool :=
  if s = "true" then some true else if s = "false" then some false else none

/-- Per-route outcome short of a fatal error: skipped with the logged
reason, or accepted with the final `ParsedRoute`. -/
inductive StepResult where
  | skipped (reason : String)
  | accepted (p : ParsedRoute)
deriving DecidableEq, Repr

/-- Draft construction for one route (`run` lines 421-481): derive the name
pair (can abort), validate and rewrite the path (can abort), and assemble
the `ParsedRoute` draft with `form` initialised to `false`. -/
def buildDraft (sc pc : String → String) (r : RouteRecord) (src : SourceInfo) :
    Except String ParsedRoute :=
  match deriveNames sc pc r.pattern src.relativePath with
  | .error e => .error e
  | .ok nt =>
    match validatePath r.pattern with
    | .error e => .error e
    | .ok p =>
      .ok { path := p, method := getMethod r.methods, form := false,
            controller := { relative := src.relativePath, path := src.modulePath },
            name := { key := nt.1, type := nt.2 } }

/-- The collision loop of `run` (lines 489-510): scan all previously
accepted routes; an equal `controller.path` throws, then an equal `name.key`
throws. -/
def collisionScan (d : ParsedRoute) : List ParsedRoute → Except String Unit
  | [] => .ok ()
  | p :: rest =>
    if p.controller.path = d.controller.path then
      .error "The controller is already registered"
    else if p.name.key = d.name.key then
      .error "The controller key has already been registered"
    else collisionScan d rest

/-- Controller validation of `run` (lines 512-551), mirroring the exact
skip order: default export, class-ness, `handle`, `input` object-ness,
`form` boolean-ness; an accepted route's `form` flag is the JS truthiness of
the `form` member's initializer text. -/
def validateController (d : ParsedRoute) (cls : Option ControllerClass) : StepResult :=
  match cls with
  | none => .skipped "We were not able to find the default export"
  | some c =>
    if !c.isClassType then .skipped "The default export is not a class"
    else if !c.hasHandle then .skipped "We were not able to find the \"handle\" method"
    else if c.input == some false then .skipped "The \"input\" property is not an object"
    else
      match c.form with
      | none => .accepted d
      | some fi =>
        if !fi.isBooleanType then .skipped "The \"form\" property is not a boolean"
        else .accepted { d with form := jsTruthy fi.initLit }

/-- Full processing of one route against the accepted history `all`
(`allParsedRoutes`): function-handler skip, missing-source skip, draft
construction (fatal on naming or path errors), collision scan (fatal), then
controller validation (skips). -/
def processRoute (sc pc : String → String) (all : List ParsedRoute) (r : RouteRecord) :
    Except String StepResult :=
  if r.handlerIsFunction then .ok (.skipped "We don't support function routes")
  else
    match r.source with
    | none => .ok (.skipped "We couldn't find the source file")
    | some src =>
      match buildDraft sc pc r src with
      | .error e => .error e
      | .ok d =>
        match collisionScan d all with
        | .error e => .error e
        | .ok _ => .ok (validateController d src.cls)

/-- The per-group route loop of `run`: returns the group's accepted
`parsedRoutes` (the routes emitted into the group's `routes` mapping) and the
skip report, threading the global accepted history; any throw aborts. -/
def processGroup (sc pc : String → String) (all : List ParsedRoute) :
    List RouteRecord → Except String (List ParsedRoute × List (String × String))
  | [] => .ok ([], [])
  | r :: rest =>
    match processRoute sc pc all r with
    | .error e => .error e
    | .ok (.skipped reason) =>
      match processGroup sc pc all rest with
      | .error e => .error e
      | .ok (ps, sk) => .ok (ps, (r.pattern, reason) :: sk)
    | .ok (.accepted p) =>
      match processGroup sc pc (all ++ [p]) rest with
      | .error e => .error e
      | .ok (ps, sk) => .ok (p :: ps, sk)

/-- The outer group loop of `run`: process each group in order, accumulating
`allParsedRoutes` across groups; returns the final accepted history. -/
def runGroups (sc pc : String → String) (all : List ParsedRoute) :
    List (List RouteRecord) → Except String (List ParsedRoute)
  | [] => .ok all
  | g :: gs =>
    match processGroup sc pc all g with
    | .error e => .error e
    | .ok (ps, _) => runGroups sc pc (all ++ ps) gs

/-- The run invariant claimed for accepted routes: no two share a name key
and no two share a controller path. -/
def routesNodup (l : List ParsedRoute) : Prop :=
  (l.map (fun p => p.name.key)).Nodup ∧ (l.map (fun p => p.controller.path)).Nodup

/-! ## Path interpolation (runtime helper consumed by `register`) -/

/-- Lookup of a parameter by placeholder name in the parameters object,
modelled as an association list of string representations. -/
def lookupParam (ps : List (String × String)) (n : String) : Option String :=
  (ps.find? (fun kv => kv.1 == n)).map Prod.snd

/-- The placeholder name opened by one part that follows an opening
`\x7b\x7b`: the text before the first closing `\x7d\x7d`, trimmed; `none`
when the part has no closing brace pair (the braces stay literal). -/
def partName (part : String) : Option String :=
  match splitStr2 part '\x7d' '\x7d' with
  | name :: _ :: _ => some (trimSpaces name)
  | _ => none

/-- Modelled from the spec: the `interpolate` function (src/interpolate.ts,
imported by register_route.ts but absent from the sources) — substitution of
one part that follows an opening `\x7b\x7b`: the placeholder name is looked
up in the parameters object and replaced by its value; a missing closing
brace pair leaves the text literal. Errors when the name has no
corresponding parameter. -/
def interpPart (ps : List (String × String)) (part : String) : Except String String :=
  match splitStr2 part '\x7d' '\x7d' with
  | name :: rest :: more =>
    match lookupParam ps (trimSpaces name) with
    | some v => .ok (v ++ joinSep "\x7d\x7d" (rest :: more))
    | none => .error ("Missing parameter: " ++ trimSpaces name)
  | _ => .ok ("\x7b\x7b" ++ part)

/-- Substitution of every part after the first, failing on the first part
whose placeholder has no parameter. -/
def interpParts (ps : List (String × String)) : List String → Except String (List String)
  | [] => .ok []
  | part :: rest =>
    match interpPart ps part with
    | .error e => .error e
    | .ok r =>
      match interpParts ps rest with
      | .error e => .error e
      | .ok rs => .ok (r :: rs)

/-- Modelled from the spec (§4.9): the `interpolate` runtime helper — given
a path template with zero or more `\x7b\x7b name \x7d\x7d` placeholders and
a parameters object, replace every placeholder by the corresponding
parameter's string representation; fail with an error when some
placeholder's name has no corresponding parameter. -/
def interpolate (t : String) (ps : List (String × String)) : Except String String :=
  match splitStr2 t '\x7b' '\x7b' with
  | [] => .ok ""
  | first :: parts =>
    match interpParts ps parts with
    | .error e => .error e
    | .ok rs => .ok (first ++ String.join rs)

/-- The placeholder names of a template, in order of occurrence. -/
def placeholders (t : String) : List String :=
  ((splitStr2 t '\x7b' '\x7b').drop 1).filterMap partName

/-- One part of `renderTemplate`: like `interpPart` but substituting the
empty string for a missing parameter (only used under the hypothesis that
every placeholder has a parameter). -/
def renderPart (ps : List (String × String)) (part : String) : String :=
  match splitStr2 part '\x7d' '\x7d' with
  | name :: rest :: more => ((lookupParam ps (trimSpaces name)).getD "") ++ joinSep "\x7d\x7d" (rest :: more)
  | _ => "\x7b\x7b" ++ part

/-- The template with every placeholder replaced by the corresponding
parameter's string representation. -/
def renderTemplate (ps : List (String × String)) (t : String) : String :=
  match splitStr2 t '\x7b' '\x7b' with
  | [] => ""
  | first :: parts => first ++ String.join (parts.map (renderPart ps))

/-! ## Concrete routes used to evaluate the embedded pipeline -/

/-- A well-formed route whose controller declares `form: boolean = false`
(initializer text `"false"`). -/
def demoFormFalseRoute : RouteRecord :=
  { pattern := "/users", methods := ["GET"], handlerIsFunction := false,
    source := some
      { relativePath := "../app/users_controller.ts",
        modulePath := "#controllers/users_controller",
        cls := some
          { isClassType := true, hasHandle := true, input := none,
            form := some { isBooleanType := true, initLit := some "false" } } } }

/-- A route whose pattern contains the uppercase literal segment `USERS`. -/
def demoUpperRoute : RouteRecord :=
  { pattern := "/USERS", methods := ["GET"], handlerIsFunction := false,
    source := some
      { relativePath := "../app/users_controller.ts",
        modulePath := "#controllers/users_controller",
        cls := some
          { isClassType := true, hasHandle := true, input := none, form := none } } }

/-- A route whose controller class lacks a `handle` member. -/
def demoNoHandleRoute : RouteRecord :=
  { pattern := "/users", methods := ["GET"], handlerIsFunction := false,
    source := some
      { relativePath := "../app/users_controller.ts",
        modulePath := "#controllers/users_controller",
        cls := some
          { isClassType := true, hasHandle := false, input := none, form := none } } }

/-- An overlapping-prefix groups configuration: declaration order puts the
shorter (less specific) prefix first. -/
def demoGroups : List (String × String) := [("api", "/api/"), ("api_v2", "/api/v2/")]

/-- The `ParsedRoute` the pipeline derives (with identity casing helpers)
for pattern `/users` handled by `users_controller.ts`. -/
def demoParsedUsers : ParsedRoute :=
  { path := "/users", method := "GET", form := false,
    name := { key := " USERS", type := " usersRoute" },
    controller := { relative := "../app/users_controller.ts",
                    path := "#controllers/users_controller" } }

/-- A previously accepted route sharing `demoParsedUsers`'s name key but
registered under a different controller path. -/
def demoParsedOther : ParsedRoute :=
  { path := "/other", method := "GET", form := false,
    name := { key := " USERS", type := " OtherRoute" },
    controller := { relative := "../app/other_controller.ts",
                    path := "#controllers/other_controller" } }

/-! ## Lemmas and claim theorems -/

theorem foldl_getMethod (ms : List String) (a : String) :
    ms.foldl (fun res m => if strLower m == "head" then res else strUpper (strLower m)) a =
      match (ms.filter fun m => strLower m != "head").getLast? with
      | none => a
      | some m => strUpper (strLower m) := by
  induction ms generalizing a with
  | nil => rfl
  | cons m rest ih =>
    rw [List.foldl_cons, List.filter_cons]
    cases h : (strLower m == "head") with
    | true =>
      have hb : (strLower m != "head") = false := by simp [bne, h]
      rw [hb]
      simp only [Bool.false_eq_true, if_false, eq_self_iff_true, if_true]
      exact ih a
    | false =>
      have hb : (strLower m != "head") = true := by simp [bne, h]
      rw [hb]
      simp only [Bool.false_eq_true, if_false, eq_self_iff_true, if_true]
      rw [ih (strUpper (strLower m))]
      cases hf : rest.filter (fun m => strLower m != "head") with
      | nil => simp
      | cons x xs =>
        rw [List.getLast?_cons_cons]
        cases hx : (x :: xs).getLast? with
        | none => simp at hx
        | some y => simp

/-- C5: for every list of declared HTTP methods, the resolved method
defaults to `GET`, case-insensitive `HEAD` entries are skipped, and every
subsequent non-HEAD entry overwrites the result, so the last declared
non-HEAD method wins; in particular `["GET","HEAD"] ↦ GET`,
`["POST","HEAD"] ↦ POST`, `["GET","POST"] ↦ POST`. -/
theorem claim_C5_method_resolution :
    (∀ ms, getMethod ms =
      match (ms.filter fun m => strLower m != "head").getLast? with
      | none => "GET"
      | some m => strUpper (strLower m))
    ∧ getMethod ["GET", "HEAD"] = "GET"
    ∧ getMethod ["POST", "HEAD"] = "POST"
    ∧ getMethod ["GET", "POST"] = "POST" :=
  ⟨fun ms => foldl_getMethod ms "GET", by decide, by decide, by decide⟩

theorem checkGroups_ok_of_valid :
    ∀ gs : List (String × String),
      (∀ kv ∈ gs, testGroupValue kv.2 = true ∧ testGroupKey kv.1 = true) →
      checkGroups gs = .ok () := by
  intro gs
  induction gs with
  | nil => intro _; rfl
  | cons kv rest ih =>
    intro h
    obtain ⟨hv, hk⟩ := h kv (List.mem_cons_self kv rest)
    obtain ⟨k, v⟩ := kv
    simp only [checkGroups, hv, hk]
    simp only [reduceCtorEq, if_false]
    exact ih fun kv hkv => h kv (List.mem_cons_of_mem _ hkv)

theorem checkGroups_error_of_invalid :
    ∀ gs : List (String × String),
      (∃ kv ∈ gs, testGroupValue kv.2 = false ∨ testGroupKey kv.1 = false) →
      ∃ e, checkGroups gs = .error e ∧ offendingError e gs := by
  intro gs
  induction gs with
  | nil => rintro ⟨kv, hmem, _⟩; exact absurd hmem (List.not_mem_nil kv)
  | cons kv rest ih =>
    rintro ⟨⟨k0, v0⟩, hmem, hbad⟩
    obtain ⟨k, v⟩ := kv
    by_cases hv : testGroupValue v = false
    · exact ⟨.invalidValue k v, by simp [checkGroups, hv],
        List.mem_cons_self _ _, hv⟩
    · by_cases hk : testGroupKey k = false
      · refine ⟨.invalidName k, by simp [checkGroups, hv, hk], v, List.mem_cons_self _ _, hk⟩
      · rcases List.mem_cons.mp hmem with heq | hmem'
        · cases heq
          rcases hbad with h | h
          · exact absurd h hv
          · exact absurd h hk
        · obtain ⟨e, he, hoff⟩ := ih ⟨(k0, v0), hmem', hbad⟩
          refine ⟨e, by simp [checkGroups, hv, hk, he], ?_⟩
          cases e with
          | invalidValue k' v' =>
            exact ⟨List.mem_cons_of_mem _ hoff.1, hoff.2⟩
          | invalidName k' =>
            obtain ⟨v', hvmem, hkey⟩ := hoff
            exact ⟨v', List.mem_cons_of_mem _ hvmem, hkey⟩

/-- C7: `defineConfig` returns the configuration unchanged when every group
key matches `[a-z0-9_]+` and every group pattern matches the leading/trailing
slash regex; for any malformed key or pattern it raises, at load time, an
error carrying the offending key/value. -/
theorem claim_C7_defineConfig :
    ∀ gs : List (String × String),
      ((∀ kv ∈ gs, testGroupValue kv.2 = true ∧ testGroupKey kv.1 = true) →
        defineConfig gs = .ok gs)
      ∧ ((∃ kv ∈ gs, testGroupValue kv.2 = false ∨ testGroupKey kv.1 = false) →
        ∃ e, defineConfig gs = .error e ∧ offendingError e gs) := by
  intro gs
  constructor
  · intro h
    simp [defineConfig, checkGroups_ok_of_valid gs h]
  · intro h
    obtain ⟨e, he, hoff⟩ := checkGroups_error_of_invalid gs h
    exact ⟨e, by simp [defineConfig, he], hoff⟩

/-- C7 witness: a well-formed one-entry configuration is returned
unchanged. -/
theorem claim_C7_defineConfig_witness :
    defineConfig [("api", "/api/")] = .ok [("api", "/api/")] :=
  (claim_C7_defineConfig [("api", "/api/")]).1 (by decide)


theorem findGroupLoop_eq_find? :
    ∀ (groups : List (String × String)) (pat : String),
      findGroupLoop groups pat = (groups.find? fun kv => strStartsWith pat kv.2).map Prod.fst := by
  intro groups pat
  induction groups with
  | nil => rfl
  | cons kv rest ih =>
    obtain ⟨k, v⟩ := kv
    by_cases h : strStartsWith pat v = true
    · simp [findGroupLoop, List.find?_cons, h]
    · simp only [Bool.not_eq_true] at h
      simp [findGroupLoop, List.find?_cons, h, ih]

theorem findGroupLoop_first_match :
    ∀ (g₁ : List (String × String)) (k v : String) (g₂ : List (String × String)) (pat : String),
      (∀ kv ∈ g₁, strStartsWith pat kv.2 = false) → strStartsWith pat v = true →
      findGroupLoop (g₁ ++ (k, v) :: g₂) pat = some k := by
  intro g₁
  induction g₁ with
  | nil =>
    intro k v g₂ pat _ hv
    simp [findGroupLoop, hv]
  | cons kv rest ih =>
    intro k v g₂ pat hnone hv
    obtain ⟨k0, v0⟩ := kv
    have h0 : strStartsWith pat v0 = false := hnone (k0, v0) (List.mem_cons_self _ _)
    simp only [List.cons_append, findGroupLoop, h0, Bool.false_eq_true, if_false]
    exact ih k v g₂ pat (fun kv hkv => hnone kv (List.mem_cons_of_mem _ hkv)) hv

/-- C6: for every route and configured groups mapping (whose keys, being
validated identifiers, are nonempty), the assigned group is the first
configured key in declaration order whose pattern is a literal string prefix
of the route's path, and `"internal"` when no configured prefix matches;
overlapping prefixes are tie-broken by declaration order alone. -/
theorem claim_C6_group_assignment :
    ∀ (groups : List (String × String)) (pat : String),
      (∀ kv ∈ groups, kv.1 ≠ "") →
      (assignGroup groups pat = firstMatchingGroup groups pat
        ∧ ((∀ kv ∈ groups, strStartsWith pat kv.2 = false) →
            assignGroup groups pat = "internal")
        ∧ (∀ (g₁ : List (String × String)) (k v : String) (g₂ : List (String × String)),
            groups = g₁ ++ (k, v) :: g₂ → strStartsWith pat v = true →
            (∀ kv ∈ g₁, strStartsWith pat kv.2 = false) →
            assignGroup groups pat = k)) := by
  intro groups pat hkeys
  refine ⟨?_, ?_, ?_⟩
  · rw [assignGroup, findGroupLoop_eq_find?, firstMatchingGroup]
    cases hf : groups.find? fun kv => strStartsWith pat kv.2 with
    | none => rfl
    | some kv =>
      have hmem : kv ∈ groups := List.mem_of_find?_eq_some hf
      have : kv.1 ≠ "" := hkeys kv hmem
      simp [this]
  · intro hnone
    rw [assignGroup, findGroupLoop_eq_find?]
    have : groups.find? (fun kv => strStartsWith pat kv.2) = none := by
      rw [List.find?_eq_none]
      intro kv hkv
      simp [hnone kv hkv]
    rw [this]
    rfl
  · intro g₁ k v g₂ hsplit hv hnone
    subst hsplit
    have hk : k ≠ "" := by
      have : (k, v) ∈ g₁ ++ (k, v) :: g₂ :=
        List.mem_append_right _ (List.mem_cons_self _ _)
      exact hkeys (k, v) this
    rw [assignGroup, findGroupLoop_first_match g₁ k v g₂ pat hnone hv]
    simp [hk]

/-- C6 witness: with overlapping prefixes `/api/` (declared first) and
`/api/v2/`, the path `/api/v2/users` is assigned to the *first-declared*
group `api`, not the more specific `api_v2`. -/
theorem claim_C6_group_assignment_witness :
    assignGroup demoGroups "/api/v2/users" = "api"
    ∧ firstMatchingGroup demoGroups "/api/v2/users" = "api" := by
  have h := (claim_C6_group_assignment demoGroups "/api/v2/users" (by decide)).1
  exact ⟨by rw [h]; decide, by decide⟩

/-- C2 (code-bug evidence): the literal segment `USERS` violates the
lowercase rule `[a-z0-9-]+` the claim states, yet the segment loop accepts
it (the source regex carries the `i` flag) and the whole pipeline accepts
the route instead of raising a fatal error. -/
theorem claim_C2_uppercase_literal_accepted :
    specLiteralSegment "USERS" = false
    ∧ validatePath "/USERS" = .ok "/USERS"
    ∧ processRoute (fun s => s) (fun s => s) [] demoUpperRoute =
        .ok (.accepted
          { path := "/USERS", method := "GET", form := false,
            name := { key := " USERS USERS", type := " USERS usersRoute" },
            controller := { relative := "../app/users_controller.ts",
                            path := "#controllers/users_controller" } }) :=
  ⟨by decide, by rfl, by rfl⟩

/-- C3 (code-bug evidence): a controller declaring `form: boolean = false`
has boolean literal initializer value `false`, but the pipeline emits
`form = true` because `Boolean(initializerText)` tests the truthiness of the
text `"false"`. -/
theorem claim_C3_form_flag_truthiness :
    boolLiteralValue "false" = some false
    ∧ jsTruthy (some "false") = true
    ∧ processRoute (fun s => s) (fun s => s) [] demoFormFalseRoute =
        .ok (.accepted
          { path := "/users", method := "GET", form := true,
            name := { key := " USERS", type := " usersRoute" },
            controller := { relative := "../app/users_controller.ts",
                            path := "#controllers/users_controller" } }) :=
  ⟨by decide, by decide, by rfl⟩


theorem pushNonParams_eq (l : List String) : ∀ acc,
    pushNonParams acc l = acc ++ l.filter fun s => !strStartsWith s ":" := by
  induction l with
  | nil => intro acc; simp [pushNonParams]
  | cons s rest ih =>
    intro acc
    rw [pushNonParams, List.filter_cons]
    cases h : strStartsWith s ":" with
    | true => simp [h, ih acc]
    | false => simp [h, ih (acc ++ [s])]

theorem dedupFirst_filter (p : String → Bool) (l : List String) :
    dedupFirst (l.filter p) = (dedupFirst l).filter p := by
  induction l with
  | nil => rfl
  | cons s rest ih =>
    rw [List.filter_cons]
    cases hp : p s with
    | true =>
      simp only [if_true]
      rw [dedupFirst, dedupFirst, ih, List.filter_cons, hp, if_pos rfl,
        List.filter_filter, List.filter_filter]
      congr 1
      apply List.filter_congr
      intro t _
      exact Bool.and_comm _ _
    | false =>
      simp only [Bool.false_eq_true, if_false]
      rw [ih, dedupFirst, List.filter_cons, hp]
      simp only [Bool.false_eq_true, if_false]
      rw [List.filter_filter]
      apply List.filter_congr
      intro t _
      by_cases h : t = s
      · subst h; simp [hp]
      · simp [h, bne]

theorem setDedup_eq (l : List String) : ∀ seen,
    setDedup seen l = seen ++ dedupFirst (l.filter fun s => decide (s ∉ seen)) := by
  induction l with
  | nil => intro seen; simp [setDedup, dedupFirst]
  | cons s rest ih =>
    intro seen
    rw [setDedup, List.filter_cons]
    by_cases h : s ∈ seen
    · rw [if_pos h, ih seen]
      have : decide (s ∉ seen) = false := by simp [h]
      rw [this]
      simp only [Bool.false_eq_true, if_false]
    · rw [if_neg h, ih (seen ++ [s])]
      have hs : decide (s ∉ seen) = true := by simp [h]
      rw [hs, if_pos rfl, dedupFirst]
      have key : dedupFirst (rest.filter fun t => decide (t ∉ seen ++ [s])) =
          (dedupFirst (rest.filter fun t => decide (t ∉ seen))).filter fun t => t != s := by
        rw [← dedupFirst_filter]
        congr 1
        rw [List.filter_filter]
        apply List.filter_congr
        intro t _
        by_cases h1 : t = s
        · subst h1; simp
        · by_cases h2 : t ∈ seen <;> simp [h1, h2, bne]
      rw [key, List.append_assoc, List.singleton_append]

/-- C4 (amended): for every route, the derived name pair is a deterministic
function of the pattern and the controller file name, computed by
concatenating the pattern's non-parameter dot-slash-hyphen tokens with the
words of the controller file name (final path segment, mandatory
`_controller.ts` checked, *first occurrence* of `_controller.ts` removed,
split on `_`), casing each token through the snake-case helper,
deduplicating while preserving first-occurrence order, joining with single
spaces; the key is the uppercased snake-case of the phrase and the type is
its pascal-case plus `Route`; the whole run aborts when the file name does
not end with `_controller` before its extension. -/
theorem claim_C4_name_derivation :
    ∀ (sc pc : String → String) (pat relPath : String),
      (∀ nt, deriveNames sc pc pat relPath = .ok nt ↔
        specDeriveAmended sc pc pat (lastSegment relPath) = some nt)
      ∧ (strEndsWith (lastSegment relPath) "_controller.ts" = false →
          ∃ e, deriveNames sc pc pat relPath = .error e) := by
  intro sc pc pat relPath
  constructor
  · intro nt
    rw [deriveNames.eq_def, getConstructorAction, specDeriveAmended]
    by_cases h0 : lastSegment relPath = ""
    · have hend : strEndsWith "" "_controller.ts" = false := by decide
      simp [h0, hend]
    · cases hend : strEndsWith (lastSegment relPath) "_controller.ts" with
      | false => simp [h0, hend]
      | true =>
        simp only [h0, hend, if_neg, if_pos, reduceCtorEq, if_false, if_true,
          Bool.true_eq_false, ite_false, ite_true]
        rw [pushNonParams_eq, setDedup_eq]
        have : (fun s => decide (s ∉ ([] : List String))) = fun _ => true := by
          funext s; simp
        rw [this, List.filter_true]
        simp only [List.nil_append]
        constructor
        · intro hok
          injection hok with hok
          rw [← hok]
        · intro hsome
          injection hsome with hsome
          rw [← hsome]
  · intro hend
    rw [deriveNames.eq_def, getConstructorAction]
    by_cases h0 : lastSegment relPath = ""
    · refine ⟨"Unable to determine the file name", ?_⟩
      simp [h0]
    · refine ⟨"The file name must end with \"_controller.ts\"", ?_⟩
      simp [h0, hend]

/-- C4 witness: a controller file name lacking the `_controller` suffix
makes the whole derivation (and hence the run) abort. -/
theorem claim_C4_name_derivation_witness :
    ∃ e, deriveNames (fun s => s) (fun s => s) "/users" "../app/users.ts" = .error e :=
  (claim_C4_name_derivation (fun s => s) (fun s => s) "/users" "../app/users.ts").2 (by decide)

/-- C4 counterexample: the claim says the controller words come from the
file name with the `_controller` suffix stripped; on the legal file name
`ab_controller.tsx_controller.ts` the code removes the *first* occurrence of
`_controller.ts` instead, yielding different words — and hence a different
derived phrase — than the claim states. -/
theorem claim_C4_counterexample :
    getConstructorAction "ab_controller.tsx_controller.ts" = .ok ["abx", "controller.ts"]
    ∧ suffixStripWords "ab_controller.tsx_controller.ts" = ["ab", "controller.tsx"]
    ∧ (["abx", "controller.ts"] : List String) ≠ ["ab", "controller.tsx"]
    ∧ specDeriveOriginal (fun s => s) (fun s => s) "/x" "ab_controller.tsx_controller.ts" =
        some (" X AB CONTROLLER.TSX", " x ab controller.tsxRoute")
    ∧ deriveNames (fun s => s) (fun s => s) "/x" "ab_controller.tsx_controller.ts" =
        .ok (" X ABX CONTROLLER.TS", " x abx controller.tsRoute")
    ∧ ((" X AB CONTROLLER.TSX", " x ab controller.tsxRoute") : String × String) ≠
        (" X ABX CONTROLLER.TS", " x abx controller.tsRoute") :=
  ⟨by rfl, by decide, by decide, by decide, by rfl, by decide⟩



theorem collisionScan_ok_iff (d : ParsedRoute) :
    ∀ l, collisionScan d l = .ok () ↔
      ∀ p ∈ l, p.controller.path ≠ d.controller.path ∧ p.name.key ≠ d.name.key := by
  intro l
  induction l with
  | nil => simp [collisionScan]
  | cons p rest ih =>
    rw [collisionScan]
    by_cases h1 : p.controller.path = d.controller.path
    · simp [h1]
    · by_cases h2 : p.name.key = d.name.key
      · simp [h1, h2]
      · simp [h1, h2, ih]

theorem collisionScan_error_of_mem (d : ParsedRoute) :
    ∀ l, (∃ p ∈ l, p.controller.path = d.controller.path ∨ p.name.key = d.name.key) →
      ∃ e, collisionScan d l = .error e := by
  intro l
  induction l with
  | nil => rintro ⟨p, hp, _⟩; exact absurd hp (List.not_mem_nil p)
  | cons p rest ih =>
    rintro ⟨q, hq, hbad⟩
    rw [collisionScan]
    by_cases h1 : p.controller.path = d.controller.path
    · exact ⟨_, by rw [if_pos h1]⟩
    · by_cases h2 : p.name.key = d.name.key
      · exact ⟨_, by rw [if_neg h1, if_pos h2]⟩
      · rw [if_neg h1, if_neg h2]
        rcases List.mem_cons.mp hq with rfl | hq2
        · rcases hbad with h | h
          · exact absurd h h1
          · exact absurd h h2
        · exact ih ⟨q, hq2, hbad⟩

theorem validateController_accepted {d p : ParsedRoute} {cls : Option ControllerClass}
    (h : validateController d cls = .accepted p) :
    p.name = d.name ∧ p.controller = d.controller := by
  unfold validateController at h
  repeat' split at h
  all_goals first
    | exact StepResult.noConfusion h
    | (injection h with h2; subst h2; exact ⟨rfl, rfl⟩)

theorem processRoute_accepted {sc pc : String → String} {all : List ParsedRoute}
    {r : RouteRecord} {p : ParsedRoute}
    (h : processRoute sc pc all r = .ok (.accepted p)) :
    ∀ q ∈ all, q.controller.path ≠ p.controller.path ∧ q.name.key ≠ p.name.key := by
  by_cases hfn : r.handlerIsFunction = true
  · simp [processRoute, hfn] at h
  · cases hsrc : r.source with
    | none => simp [processRoute, hfn, hsrc] at h
    | some src =>
      cases hd : buildDraft sc pc r src with
      | error e => simp [processRoute, hfn, hsrc, hd] at h
      | ok d =>
        cases hscan : collisionScan d all with
        | error e => simp [processRoute, hfn, hsrc, hd, hscan] at h
        | ok u =>
          cases u
          simp only [processRoute, hfn, Bool.false_eq_true, if_false, hsrc, hd, hscan,
            Except.ok.injEq] at h
          obtain ⟨hname, hctrl⟩ := validateController_accepted h
          intro q hq
          obtain ⟨hc, hk⟩ := (collisionScan_ok_iff d all).mp hscan q hq
          rw [hctrl, hname]
          exact ⟨hc, hk⟩

theorem routesNodup_append_accepted {all : List ParsedRoute} {p : ParsedRoute}
    (hnd : routesNodup all)
    (hfresh : ∀ q ∈ all, q.controller.path ≠ p.controller.path ∧ q.name.key ≠ p.name.key) :
    routesNodup (all ++ [p]) := by
  obtain ⟨hk, hc⟩ := hnd
  constructor
  · rw [List.map_append, List.nodup_append]
    refine ⟨hk, List.nodup_singleton _, ?_⟩
    intro a ha hb
    simp only [List.map_cons, List.map_nil, List.mem_singleton] at hb
    subst hb
    obtain ⟨q, hq, hqa⟩ := List.mem_map.mp ha
    exact (hfresh q hq).2 hqa
  · rw [List.map_append, List.nodup_append]
    refine ⟨hc, List.nodup_singleton _, ?_⟩
    intro a ha hb
    simp only [List.map_cons, List.map_nil, List.mem_singleton] at hb
    subst hb
    obtain ⟨q, hq, hqa⟩ := List.mem_map.mp ha
    exact (hfresh q hq).1 hqa

theorem processGroup_nodup {sc pc : String → String} :
    ∀ (rs : List RouteRecord) (all ps : List ParsedRoute) (sk : List (String × String)),
      routesNodup all → processGroup sc pc all rs = .ok (ps, sk) →
      routesNodup (all ++ ps) := by
  intro rs
  induction rs with
  | nil =>
    intro all ps sk hnd h
    simp only [processGroup, Except.ok.injEq, Prod.mk.injEq] at h
    obtain ⟨rfl, rfl⟩ := h
    rw [List.append_nil]
    exact hnd
  | cons r rest ih =>
    intro all ps sk hnd h
    cases hr : processRoute sc pc all r with
    | error e =>
      simp only [processGroup, hr] at h
      exact Except.noConfusion h
    | ok step =>
      cases step with
      | skipped reason =>
        cases hg : processGroup sc pc all rest with
        | error e =>
          simp only [processGroup, hr, hg] at h
          exact Except.noConfusion h
        | ok pr =>
          obtain ⟨ps2, sk2⟩ := pr
          simp only [processGroup, hr, hg, Except.ok.injEq, Prod.mk.injEq] at h
          obtain ⟨rfl, rfl⟩ := h
          exact ih all ps2 sk2 hnd hg
      | accepted p =>
        cases hg : processGroup sc pc (all ++ [p]) rest with
        | error e =>
          simp only [processGroup, hr, hg] at h
          exact Except.noConfusion h
        | ok pr =>
          obtain ⟨ps2, sk2⟩ := pr
          simp only [processGroup, hr, hg, Except.ok.injEq, Prod.mk.injEq] at h
          obtain ⟨rfl, rfl⟩ := h
          have hnd2 := routesNodup_append_accepted hnd (processRoute_accepted hr)
          have hres := ih (all ++ [p]) ps2 sk2 hnd2 hg
          rw [List.append_cons]
          exact hres

theorem runGroups_nodup {sc pc : String → String} :
    ∀ (gs : List (List RouteRecord)) (all res : List ParsedRoute),
      routesNodup all → runGroups sc pc all gs = .ok res → routesNodup res := by
  intro gs
  induction gs with
  | nil =>
    intro all res hnd h
    simp only [runGroups, Except.ok.injEq] at h
    subst h
    exact hnd
  | cons g rest ih =>
    intro all res hnd h
    cases hg : processGroup sc pc all g with
    | error e =>
      simp only [runGroups, hg] at h
      exact Except.noConfusion h
    | ok pr =>
      obtain ⟨ps, sk⟩ := pr
      simp only [runGroups, hg] at h
      exact ih (all ++ ps) res (processGroup_nodup g all ps sk hnd hg) h

/-- C1: a route draft whose `controller.path` or name `key` equals that of a
previously accepted route makes the run abort with a fatal error; every
acceptance preserves key/controller-path uniqueness of the accepted list,
and consequently the accepted routes of a whole run (which starts empty) are
duplicate-free in both name keys and controller paths. -/
theorem claim_C1_run_uniqueness :
    (∀ (sc pc : String → String) (all : List ParsedRoute) (r : RouteRecord)
        (src : SourceInfo) (d : ParsedRoute),
      r.handlerIsFunction = false → r.source = some src →
      buildDraft sc pc r src = .ok d →
      (∃ p ∈ all, p.controller.path = d.controller.path ∨ p.name.key = d.name.key) →
      ∃ e, processRoute sc pc all r = .error e)
    ∧ (∀ (sc pc : String → String) (all : List ParsedRoute) (r : RouteRecord)
        (p : ParsedRoute),
      routesNodup all → processRoute sc pc all r = .ok (.accepted p) →
      routesNodup (all ++ [p]))
    ∧ (∀ (sc pc : String → String) (gs : List (List RouteRecord)) (res : List ParsedRoute),
      runGroups sc pc [] gs = .ok res →
      (res.map fun p => p.name.key).Nodup ∧ (res.map fun p => p.controller.path).Nodup) := by
  refine ⟨?_, ?_, ?_⟩
  · intro sc pc all r src d hfn hsrc hd hcol
    obtain ⟨e, he⟩ := collisionScan_error_of_mem d all hcol
    exact ⟨e, by simp [processRoute, hfn, hsrc, hd, he]⟩
  · intro sc pc all r p hnd hacc
    exact routesNodup_append_accepted hnd (processRoute_accepted hacc)
  · intro sc pc gs res h
    exact runGroups_nodup gs [] res ⟨List.nodup_nil, List.nodup_nil⟩ h

/-- C1 witness: a draft colliding with an already-accepted route (same
controller path and same key) is fatal, and a concrete one-group run yields
a duplicate-free accepted list. -/
theorem claim_C1_run_uniqueness_witness :
    (∃ e, processRoute (fun s => s) (fun s => s) [demoParsedUsers] demoNoHandleRoute = .error e)
    ∧ (([{ demoParsedUsers with form := true }].map fun p => p.name.key).Nodup
        ∧ ([{ demoParsedUsers with form := true }].map fun p => p.controller.path).Nodup) := by
  constructor
  · exact claim_C1_run_uniqueness.1 (fun s => s) (fun s => s) [demoParsedUsers]
      demoNoHandleRoute
      { relativePath := "../app/users_controller.ts",
        modulePath := "#controllers/users_controller",
        cls := some { isClassType := true, hasHandle := false, input := none, form := none } }
      demoParsedUsers rfl rfl (by rfl)
      ⟨demoParsedUsers, List.mem_singleton.mpr rfl, Or.inl rfl⟩
  · exact claim_C1_run_uniqueness.2.2 (fun s => s) (fun s => s) [[demoFormFalseRoute]]
      [{ demoParsedUsers with form := true }] (by rfl)

/-- C10: the collision checks run before controller validation, so a route
whose draft collides with a previously accepted route (here: by name key
only) aborts the whole run even though its own controller lacks a `handle`
member and would otherwise merely have been skipped. -/
theorem claim_C10_collision_before_validation :
    ∀ (sc pc : String → String) (all : List ParsedRoute) (r : RouteRecord)
      (src : SourceInfo) (c : ControllerClass) (d : ParsedRoute),
      r.handlerIsFunction = false → r.source = some src →
      src.cls = some c → c.hasHandle = false →
      buildDraft sc pc r src = .ok d →
      (∃ p ∈ all, p.controller.path = d.controller.path ∨ p.name.key = d.name.key) →
      ∃ e, processRoute sc pc all r = .error e := by
  intro sc pc all r src c d hfn hsrc hcls hh hd hcol
  obtain ⟨e, he⟩ := collisionScan_error_of_mem d all hcol
  exact ⟨e, by simp [processRoute, hfn, hsrc, hd, he]⟩

/-- C10 witness: a no-`handle` controller whose draft shares only the name
key of an accepted route still aborts the run. -/
theorem claim_C10_collision_before_validation_witness :
    ∃ e, processRoute (fun s => s) (fun s => s) [demoParsedOther] demoNoHandleRoute = .error e :=
  claim_C10_collision_before_validation (fun s => s) (fun s => s) [demoParsedOther]
    demoNoHandleRoute
    { relativePath := "../app/users_controller.ts",
      modulePath := "#controllers/users_controller",
      cls := some { isClassType := true, hasHandle := false, input := none, form := none } }
    { isClassType := true, hasHandle := false, input := none, form := none }
    demoParsedUsers rfl rfl rfl rfl (by rfl)
    ⟨demoParsedOther, List.mem_singleton.mpr rfl, Or.inr rfl⟩

/-- C9: a route whose default-exported controller class lacks a `handle`
member is skipped with that reason: it contributes nothing to the group's
accepted (emitted) routes, its skip report entry is recorded, and processing
of the remaining routes continues exactly as if the route were absent. -/
theorem claim_C9_missing_handle_skip :
    ∀ (sc pc : String → String) (all : List ParsedRoute) (r : RouteRecord)
      (src : SourceInfo) (c : ControllerClass) (d : ParsedRoute)
      (rest : List RouteRecord),
      r.handlerIsFunction = false → r.source = some src →
      src.cls = some c → c.isClassType = true → c.hasHandle = false →
      buildDraft sc pc r src = .ok d →
      collisionScan d all = .ok () →
      (processRoute sc pc all r =
        .ok (.skipped "We were not able to find the \"handle\" method"))
      ∧ processGroup sc pc all (r :: rest) =
          Except.map
            (fun x => (x.1, (r.pattern, "We were not able to find the \"handle\" method") :: x.2))
            (processGroup sc pc all rest) := by
  intro sc pc all r src c d rest hfn hsrc hcls hclass hh hd hscan
  have hstep : processRoute sc pc all r =
      .ok (.skipped "We were not able to find the \"handle\" method") := by
    simp [processRoute, hfn, hsrc, hd, hscan, validateController, hcls, hclass, hh]
  refine ⟨hstep, ?_⟩
  cases hg : processGroup sc pc all rest with
  | error e => simp only [processGroup, hstep, hg, Except.map]
  | ok pr =>
    obtain ⟨ps, sk⟩ := pr
    simp only [processGroup, hstep, hg, Except.map]

/-- C9 witness: a concrete one-route group whose controller lacks `handle`
yields no accepted routes, one skip report entry, and no error. -/
theorem claim_C9_missing_handle_skip_witness :
    processGroup (fun s => s) (fun s => s) [] [demoNoHandleRoute] =
      .ok ([], [("/users", "We were not able to find the \"handle\" method")]) := by
  have h := (claim_C9_missing_handle_skip (fun s => s) (fun s => s) [] demoNoHandleRoute
    { relativePath := "../app/users_controller.ts",
      modulePath := "#controllers/users_controller",
      cls := some { isClassType := true, hasHandle := false, input := none, form := none } }
    { isClassType := true, hasHandle := false, input := none, form := none }
    demoParsedUsers [] rfl rfl rfl rfl rfl (by rfl) (by rfl)).2
  rw [h]
  rfl


theorem interpPart_ok_iff (ps : List (String × String)) (part : String) :
    (∃ r, interpPart ps part = .ok r) ↔
      ∀ n, partName part = some n → (lookupParam ps n).isSome = true := by
  cases hsp : splitStr2 part '\x7d' '\x7d' with
  | nil => simp [interpPart, partName, hsp]
  | cons name rest0 =>
    cases rest0 with
    | nil => simp [interpPart, partName, hsp]
    | cons rest more =>
      cases hl : lookupParam ps (trimSpaces name) with
      | none => simp [interpPart, partName, hsp, hl]
      | some v => simp [interpPart, partName, hsp, hl]

theorem interpParts_ok_iff (ps : List (String × String)) :
    ∀ parts : List String,
      (∃ rs, interpParts ps parts = .ok rs) ↔
        ∀ part ∈ parts, ∃ r, interpPart ps part = .ok r := by
  intro parts
  induction parts with
  | nil => simp [interpParts]
  | cons part rest ih =>
    cases hp : interpPart ps part with
    | error e => simp [interpParts, hp]
    | ok r =>
      cases hr : interpParts ps rest with
      | error e => simp [interpParts, hp, hr, List.forall_mem_cons, ← ih]
      | ok rs => simp [interpParts, hp, hr, List.forall_mem_cons, ← ih]

theorem interpPart_ok_render (ps : List (String × String)) (part : String) (r : String)
    (hr : interpPart ps part = .ok r) : r = renderPart ps part := by
  cases hsp : splitStr2 part '\x7d' '\x7d' with
  | nil =>
    simp [interpPart, renderPart, hsp] at hr ⊢
    exact hr.symm
  | cons name rest0 =>
    cases rest0 with
    | nil =>
      simp [interpPart, renderPart, hsp] at hr ⊢
      exact hr.symm
    | cons rest more =>
      cases hl : lookupParam ps (trimSpaces name) with
      | none => simp [interpPart, hsp, hl] at hr
      | some v =>
        simp [interpPart, renderPart, hsp, hl] at hr ⊢
        exact hr.symm

theorem interpParts_render (ps : List (String × String)) :
    ∀ parts : List String,
      (∀ part ∈ parts, ∃ r, interpPart ps part = .ok r) →
      interpParts ps parts = .ok (parts.map (renderPart ps)) := by
  intro parts
  induction parts with
  | nil => intro _; rfl
  | cons part rest ih =>
    intro h
    obtain ⟨⟨r, hr⟩, hrest⟩ := List.forall_mem_cons.mp h
    have hpart : interpPart ps part = .ok (renderPart ps part) := by
      rw [hr, interpPart_ok_render ps part r hr]
    simp only [interpParts, hpart, ih hrest, List.map_cons]

/-- C8: for every path template and parameters object, interpolation
succeeds exactly when every placeholder name has a corresponding parameter,
in which case it returns the template with every placeholder replaced by the
parameter's string representation; `/users/\x7b\x7b id \x7d\x7d` with
`id = "42"` yields `/users/42`, and a missing `id` yields an error. -/
theorem claim_C8_interpolation :
    (∀ (t : String) (ps : List (String × String)),
      ((∃ r, interpolate t ps = .ok r) ↔
        ∀ n ∈ placeholders t, (lookupParam ps n).isSome = true)
      ∧ ((∀ n ∈ placeholders t, (lookupParam ps n).isSome = true) →
          interpolate t ps = .ok (renderTemplate ps t)))
    ∧ interpolate "/users/\x7b\x7b id \x7d\x7d" [("id", "42")] = .ok "/users/42"
    ∧ interpolate "/users/\x7b\x7b id \x7d\x7d" [] = .error "Missing parameter: id" := by
  refine ⟨?_, by rfl, by rfl⟩
  intro t ps
  cases hsp : splitStr2 t '\x7b' '\x7b' with
  | nil =>
    constructor
    · simp [interpolate, placeholders, hsp]
    · intro _
      simp [interpolate, renderTemplate, hsp]
  | cons first parts =>
    have hplace : placeholders t = parts.filterMap partName := by
      simp [placeholders, hsp]
    have hnames : (∀ part ∈ parts, ∃ r, interpPart ps part = .ok r) ↔
        (∀ n ∈ placeholders t, (lookupParam ps n).isSome = true) := by
      rw [hplace]
      constructor
      · intro h n hn
        obtain ⟨part, hpart, hname⟩ := List.mem_filterMap.mp hn
        exact (interpPart_ok_iff ps part).mp (h part hpart) n hname
      · intro h part hpart
        refine (interpPart_ok_iff ps part).mpr ?_
        intro n hname
        exact h n (List.mem_filterMap.mpr ⟨part, hpart, hname⟩)
    constructor
    · rw [← hnames, ← interpParts_ok_iff]
      cases hip : interpParts ps parts with
      | error e => simp [interpolate, hsp, hip]
      | ok rs => simp [interpolate, hsp, hip]
    · intro h
      have hok := interpParts_render ps parts (hnames.mpr h)
      simp [interpolate, renderTemplate, hsp, hok]

/-- C8 witness: the concrete template evaluates to its full rendering once
every placeholder has a parameter. -/
theorem claim_C8_interpolation_witness :
    interpolate "/users/\x7b\x7b id \x7d\x7d" [("id", "42")] =
      .ok (renderTemplate [("id", "42")] "/users/\x7b\x7b id \x7d\x7d") :=
  (claim_C8_interpolation.1 "/users/\x7b\x7b id \x7d\x7d" [("id", "42")]).2 (by decide)

end Skema
